import Mathlib

/-!
# Verification of `createPaginatedQuery` (groq-paginator, `src/index.ts`)

Shallow embedding of the keyset-pagination core.  The paginator builds GROQ
query strings and hands them to an injected `client.fetch`; here the query a
string would denote is embedded as a structured `PipeQuery`, and the external
executor (groq-js in the repository's tests) is embedded as `groqClient`,
which evaluates that query over a concrete dataset.

Executor semantics modelled from groq-js as exercised by the repository's
tests:
* `order(field dir)` is a stable sort by the single given key
  (JavaScript `Array.prototype.sort` is stable); ties keep dataset order.
* comparison operators (`<`, `>`, `==`) on mixed types yield `null`, which is
  falsy in a filter position;
* `_id in path("drafts.*")` holds iff the identifier is `drafts.` followed by
  exactly one further nonempty segment containing no `.`;
* `string::split(_id, "drafts.")[1]` is JavaScript `String.split` (split at
  every non-overlapping occurrence, left to right) indexed at 1;
* `[a...b]` slices with an exclusive upper bound, negative indices counting
  from the end.

Sort-key values admitted by the data model are numbers or strings (`SValue`);
numbers are modelled as integers.  A document carries its identifier and the
value of the configured order field (`projection` only shapes the returned
record and is not modelled; the `query` option is unused by the source).
-/

/-- A sort-key value: GROQ number or string.  Numbers are modelled as `Int`. -/
inductive SValue
  | num (n : Int)
  | str (s : String)
  deriving DecidableEq, Repr

/-- A document: its `_id` and the value of the configured order field
(every modelled document carries that field). -/
structure Doc where
  _id : String
  orderVal : SValue
  deriving DecidableEq, Repr

/-- JavaScript string comparison `a < b`: lexicographic on the code units,
here on the characters' code points. -/
def charListLtB : List Char → List Char → Bool
  | [], [] => false
  | [], _ :: _ => true
  | _ :: _, [] => false
  | a :: as, b :: bs =>
    if a.toNat < b.toNat then true
    else if b.toNat < a.toNat then false
    else charListLtB as bs

/-- JavaScript `<` on strings. -/
def strLtB (a b : String) : Bool := charListLtB a.data b.data

/-- Total comparison used by `order()`: numbers and strings compare within
their type; across types groq-js orders numbers before strings. -/
def svCmp : SValue → SValue → Ordering
  | .num a, .num b => if a < b then .lt else if b < a then .gt else .eq
  | .str a, .str b => if strLtB a b then .lt else if strLtB b a then .gt else .eq
  | .num _, .str _ => .lt
  | .str _, .num _ => .gt

/-- Partial comparison used by the operators `<` / `>`: mixed types yield
`null` (falsy in a filter), modelled as `none`. -/
def svPCmp : SValue → SValue → Option Ordering
  | .num a, .num b => some (if a < b then .lt else if b < a then .gt else .eq)
  | .str a, .str b => some (if strLtB a b then .lt else if strLtB b a then .gt else .eq)
  | _, _ => none

/-- `v > w` in a filter position, `w` possibly null. -/
def svGtB (v : SValue) : Option SValue → Bool
  | some w => svPCmp v w == some .gt
  | none => false

/-- `v < w` in a filter position, `w` possibly null. -/
def svLtB (v : SValue) : Option SValue → Bool
  | some w => svPCmp v w == some .lt
  | none => false

/-- `v == w` in a filter position, `w` possibly null (`x == null` is false
for non-null `x`; cross-type equality is false). -/
def svEqB (v : SValue) : Option SValue → Bool
  | some w => v == w
  | none => false

section ISort

variable {α : Type} (le : α → α → Bool)

/-- Insert `a` before the first element `b` with `le a b`.  Together with
`isort` this is a stable sort: an element inserted from further left stays
before the ties already present. -/
def insertLe (a : α) : List α → List α
  | [] => [a]
  | b :: t => if le a b then a :: b :: t else b :: insertLe a t

/-- Stable insertion sort; the model of groq-js `order()` (JavaScript's
stable `Array.prototype.sort` with the key comparator). -/
def isort : List α → List α
  | [] => []
  | x :: xs => insertLe le x (isort xs)

end ISort

/-- `order(field asc)` comparator on documents (ties admitted). -/
def docLeAsc (a b : Doc) : Bool := !(svCmp a.orderVal b.orderVal == .gt)

/-- `order(field desc)` comparator on documents: groq-js negates the
comparator, so ties still keep dataset order. -/
def docLeDesc (a b : Doc) : Bool := !(svCmp a.orderVal b.orderVal == .lt)

/-- The comparator `order(field dir)` uses, by direction. -/
def docLe (asc : Bool) : Doc → Doc → Bool :=
  if asc then docLeAsc else docLeDesc

/-- `| order(field dir)`: stable sort of the pipeline by the order field,
`asc = true` for ascending. -/
def orderSort (asc : Bool) (l : List Doc) : List Doc :=
  isort (docLe asc) l

/-- `_id in path("drafts.*")`: the id is `drafts.` followed by one nonempty
segment with no further `.` (the `*` wildcard matches a single segment). -/
def isDraftCode (id : String) : Bool :=
  id.data.take 7 == "drafts.".data &&
    !(id.data.drop 7 == []) && !((id.data.drop 7).contains '.')

/-- First index at which `sep` occurs in `s` (JavaScript `String.indexOf`). -/
def findSub (sep : List Char) : List Char → Option Nat
  | [] => if sep == [] then some 0 else none
  | c :: t =>
    if (c :: t).take sep.length == sep then some 0
    else (findSub sep t).map (· + 1)

/-- JavaScript `String.split`, fuelled (the fuel `s.length + 1` suffices for
a nonempty separator): split at every non-overlapping occurrence of `sep`,
scanning left to right. -/
def jsSplitAux (sep : List Char) : Nat → List Char → List (List Char)
  | 0, s => [s]
  | fuel + 1, s =>
    match findSub sep s with
    | none => [s]
    | some i => s.take i :: jsSplitAux sep fuel (s.drop (i + sep.length))

/-- `string::split(_id, "drafts.")[1]`: the second chunk of the JavaScript
split, or null when the separator does not occur. -/
def publishedIdCode (id : String) : Option String :=
  ((jsSplitAux "drafts.".data (id.data.length + 1) id.data).map
    (fun l => (⟨l⟩ : String)))[1]?

/-- The overlay filter `[!_isDraft || count(*[_id == ^._publishedId]._id) == 0]`
of every query the paginator builds: a document is visible unless it is a
draft whose published identifier occurs in the raw dataset `ds`. -/
def visibleCode (ds : List Doc) (d : Doc) : Bool :=
  !isDraftCode d._id || !(ds.any (fun e => publishedIdCode d._id == some e._id))

/-- GROQ slice `[start...stop]` (exclusive upper bound); a negative index
counts from the end of the array, out-of-range indices are clamped. -/
def groqSlice (start stop : Int) (xs : List Doc) : List Doc :=
  let l : Int := if start < 0 then (xs.length : Int) + start else start
  let r : Int := if stop < 0 then (xs.length : Int) + stop else stop
  (xs.take r.toNat).drop l.toNat

/-- The structured content of a query string built by the source's `query`
helper or by `previousPageQuery`: caller filter, optional injected cursor
predicate, sort direction, window, and (for `previousPage` only) the
trailing re-sort `| order(field direction)`. -/
structure PipeQuery where
  filt : Doc → Bool
  pageFilter : Option (Doc → Bool)
  sortAsc : Bool
  start : Int
  stop : Int
  reorder : Option Bool

/-- The content of the `numPages` count query: the caller filter (the overlay
rule is always applied). -/
structure CountQuery where
  filt : Doc → Bool

/-- The injected `client`: `fetch` returning a document list or, for the
count query, a number; either may fail with a transport error `ε`. -/
structure Client (ε : Type) where
  fetchList : PipeQuery → Except ε (List Doc)
  fetchCount : CountQuery → Except ε Nat

/-- `createPaginatedQuery` options (the unused `query` option and the
`projection` string are not modelled; `order: [field, dir]` is split into
`orderField` and `sortAsc`). -/
structure PaginatedQueryOptions (ε : Type) where
  client : Client ε
  filt : Doc → Bool
  orderField : String
  sortAsc : Bool
  pageSize : Int

/-- The paginator's mutable cursor state (all fields start `undefined`). -/
structure PQState where
  currentPage : Option Int
  lastOrderFieldMin : Option SValue
  lastOrderFieldMax : Option SValue
  lastMinId : Option String
  lastMaxId : Option String
  deriving DecidableEq, Repr

/-- The state of a freshly constructed paginator. -/
def initState : PQState :=
  { currentPage := none, lastOrderFieldMin := none, lastOrderFieldMax := none,
    lastMinId := none, lastMaxId := none }

/-- An operation fails either because the client rejected (`fetch e`) or
because `saveBounds` indexed into an empty result
(`results[0][order]` throwing a TypeError). -/
inductive PagErr (ε : Type)
  | fetch (e : ε)
  | emptyBoundsTypeError
  deriving DecidableEq, Repr

/-- `saveBounds`: on a nonempty page record first/last order values and ids;
on an empty page `results[0]` is `undefined` and reading `[order]` throws
before any field is written. -/
def saveBounds? (st : PQState) : List Doc → Option PQState
  | [] => none
  | d :: t =>
    let lastDoc := (d :: t).getLast (List.cons_ne_nil d t)
    some { st with
      lastOrderFieldMin := some d.orderVal
      lastOrderFieldMax := some lastDoc.orderVal
      lastMinId := some d._id
      lastMaxId := some lastDoc._id }

/-- The query string built by `getPage`: no cursor predicate, window
`[page*pageSize ... page*pageSize + pageSize]`. -/
def getPageQuery {ε : Type} (opts : PaginatedQueryOptions ε) (page : Int) : PipeQuery :=
  { filt := opts.filt, pageFilter := none, sortAsc := opts.sortAsc,
    start := page * opts.pageSize, stop := page * opts.pageSize + opts.pageSize,
    reorder := none }

/-- Attribute reference `name` evaluated on a document: the modelled
documents carry exactly the order field (and `_id`), so any other name is
null. -/
def attrRef {ε : Type} (opts : PaginatedQueryOptions ε) (d : Doc) (name : String) :
    Option SValue :=
  if name == opts.orderField then some d.orderVal else none

/-- String interpolation of a stored bound into the query text
(`${lastOrderFieldMax}`): a number becomes a numeric literal, a string is
spliced **unquoted** and therefore parses as an attribute reference, and an
`undefined` bound becomes the identifier `undefined` (an attribute
reference that is always null here). -/
def interpBound {ε : Type} (opts : PaginatedQueryOptions ε) (b : Option SValue) (d : Doc) :
    Option SValue :=
  match b with
  | some (.num n) => some (.num n)
  | some (.str s) => attrRef opts d s
  | none => attrRef opts d "undefined"

/-- `nextPage`'s injected cursor predicate
`(field > lastOrderFieldMax || (field == lastOrderFieldMax && _id > "lastMaxId"))`. -/
def nextPred {ε : Type} (opts : PaginatedQueryOptions ε) (st : PQState) (d : Doc) : Bool :=
  svGtB d.orderVal (interpBound opts st.lastOrderFieldMax d) ||
    (svEqB d.orderVal (interpBound opts st.lastOrderFieldMax d) &&
      strLtB (st.lastMaxId.getD "undefined") d._id)

/-- `previousPage`'s cursor predicate
`(field < lastOrderFieldMin || field == lastOrderFieldMin && _id < "lastMinId")`. -/
def prevPred {ε : Type} (opts : PaginatedQueryOptions ε) (st : PQState) (d : Doc) : Bool :=
  svLtB d.orderVal (interpBound opts st.lastOrderFieldMin d) ||
    (svEqB d.orderVal (interpBound opts st.lastOrderFieldMin d) &&
      strLtB d._id (st.lastMinId.getD "undefined"))

/-- The query built by `nextPage` when the cursor is positioned: caller
filter plus cursor predicate, configured sort direction, window
`[0...pageSize]`. -/
def nextPageQuery {ε : Type} (opts : PaginatedQueryOptions ε) (st : PQState) : PipeQuery :=
  { filt := opts.filt, pageFilter := some (nextPred opts st), sortAsc := opts.sortAsc,
    start := 0, stop := opts.pageSize, reorder := none }

/-- `previousPageQuery`: cursor predicate inside the filter, sort in the
**inverse** direction, window `[0...pageSize]`, then a trailing
`| order(field direction)` restoring the configured direction. -/
def previousPageQuery {ε : Type} (opts : PaginatedQueryOptions ε) (st : PQState) : PipeQuery :=
  { filt := opts.filt, pageFilter := some (prevPred opts st), sortAsc := !opts.sortAsc,
    start := 0, stop := opts.pageSize, reorder := some opts.sortAsc }

/-- `getPage(page)`: fetch the offset window, then set `currentPage` and
save bounds (the `currentPage = page` write precedes the `saveBounds` read
that throws on an empty page). -/
def getPage {ε : Type} (opts : PaginatedQueryOptions ε) (page : Int) (st : PQState) :
    Except (PagErr ε) (List Doc) × PQState :=
  match opts.client.fetchList (getPageQuery opts page) with
  | .error e => (.error (.fetch e), st)
  | .ok results =>
    match saveBounds? { st with currentPage := some page } results with
    | none => (.error .emptyBoundsTypeError, { st with currentPage := some page })
    | some st2 => (.ok results, st2)

/-- `nextPage()`: from a fresh cursor, exactly `getPage(0)`; otherwise fetch
with the forward cursor predicate and update
`currentPage = currentPage ? currentPage + 1 : 0` (JavaScript truthiness:
`0` is falsy). -/
def nextPage {ε : Type} (opts : PaginatedQueryOptions ε) (st : PQState) :
    Except (PagErr ε) (List Doc) × PQState :=
  match st.currentPage with
  | none => getPage opts 0 st
  | some cur =>
    match opts.client.fetchList (nextPageQuery opts st) with
    | .error e => (.error (.fetch e), st)
    | .ok results =>
      match saveBounds? { st with currentPage := some (if cur == 0 then 0 else cur + 1) } results with
      | none => (.error .emptyBoundsTypeError,
          { st with currentPage := some (if cur == 0 then 0 else cur + 1) })
      | some st2 => (.ok results, st2)

/-- `previousPage()`: from a fresh cursor, exactly `getPage(0)`; otherwise
fetch with the backward cursor predicate and update
`currentPage = currentPage ? currentPage - 1 : 0`. -/
def previousPage {ε : Type} (opts : PaginatedQueryOptions ε) (st : PQState) :
    Except (PagErr ε) (List Doc) × PQState :=
  match st.currentPage with
  | none => getPage opts 0 st
  | some cur =>
    match opts.client.fetchList (previousPageQuery opts st) with
    | .error e => (.error (.fetch e), st)
    | .ok results =>
      match saveBounds? { st with currentPage := some (if cur == 0 then 0 else cur - 1) } results with
      | none => (.error .emptyBoundsTypeError,
          { st with currentPage := some (if cur == 0 then 0 else cur - 1) })
      | some st2 => (.ok results, st2)

/-- `Math.ceil(count / pageSize)` over JavaScript numbers (exact for the
integer inputs arising here). -/
def mathCeilDiv (count : Nat) (pageSize : Int) : Int :=
  ⌈(count : ℚ) / (pageSize : ℚ)⌉

/-- `numPages()`: count the filtered, draft-resolved documents and divide,
rounding up; reads and writes no cursor state. -/
def numPages {ε : Type} (opts : PaginatedQueryOptions ε) : Except (PagErr ε) Int :=
  match opts.client.fetchCount { filt := opts.filt } with
  | .error e => .error (.fetch e)
  | .ok count => .ok (mathCeilDiv count opts.pageSize)

/-- The first filter of the pipeline: caller filter and, when present, the
injected cursor predicate. -/
def pipeBase (ds : List Doc) (q : PipeQuery) : List Doc :=
  ds.filter (fun d =>
    q.filt d && (match q.pageFilter with | none => true | some pf => pf d))

/-- The filtered pipeline before windowing, continued: stable sort then the
overlay filter (whose counterpart lookup ranges over the raw dataset). -/
def pipeBody (ds : List Doc) (q : PipeQuery) : List Doc :=
  (orderSort q.sortAsc (pipeBase ds q)).filter (visibleCode ds)

/-- Evaluation of a built query over a dataset, as groq-js does in the
repository's tests: filter, stable sort, overlay filter, slice, and the
optional trailing re-sort. -/
def evalPipe (ds : List Doc) (q : PipeQuery) : List Doc :=
  let sliced := groqSlice q.start q.stop (pipeBody ds q)
  match q.reorder with
  | none => sliced
  | some asc => orderSort asc sliced

/-- The groq-js-backed client of the repository's tests: evaluates list
queries with `evalPipe` and the count query as the size of the filtered,
draft-resolved set; it never rejects. -/
def groqClient {ε : Type} (ds : List Doc) : Client ε :=
  { fetchList := fun q => .ok (evalPipe ds q),
    fetchCount := fun q => .ok ((ds.filter (fun d => q.filt d && visibleCode ds d)).length) }


/-! ## Shared concrete data for witnesses and counterexamples -/

/-- A small ascending dataset with distinct numeric keys. -/
def sampleDS : List Doc := [⟨"a", .num 1⟩, ⟨"b", .num 2⟩, ⟨"c", .num 3⟩]

/-- Paginator over `sampleDS`, ascending, page size 1. -/
def sampleOpts : PaginatedQueryOptions Nat :=
  { client := groqClient sampleDS, filt := fun _ => true, orderField := "order",
    sortAsc := true, pageSize := 1 }

/-- A client whose fetches always reject with the transport error `0`. -/
def failClient : Client Nat :=
  { fetchList := fun _ => .error 0, fetchCount := fun _ => .error 0 }

/-- Paginator wired to the always-rejecting client. -/
def failOpts : PaginatedQueryOptions Nat :=
  { client := failClient, filt := fun _ => true, orderField := "order",
    sortAsc := true, pageSize := 5 }

/-- Paginator over the empty dataset. -/
def emptyOpts : PaginatedQueryOptions Nat :=
  { client := groqClient [], filt := fun _ => true, orderField := "order",
    sortAsc := true, pageSize := 5 }

/-- One navigation operation of the public surface that touches cursor
state (`numPages` neither reads nor writes it). -/
inductive POp
  | get (page : Int)
  | next
  | prev

/-- Dispatch one operation against the paginator. -/
def runOp {ε : Type} (opts : PaginatedQueryOptions ε) :
    POp → PQState → Except (PagErr ε) (List Doc) × PQState
  | .get page, st => getPage opts page st
  | .next, st => nextPage opts st
  | .prev, st => previousPage opts st


/-! ## Sorting kit: permutation, sortedness, stability -/

/-- `l` is sorted for the boolean comparator `le`. -/
def SortedB {α : Type} (le : α → α → Bool) (l : List α) : Prop :=
  l.Pairwise (fun a b => le a b = true)

theorem insertLe_perm {α : Type} (le : α → α → Bool) (a : α) (l : List α) :
    List.Perm (insertLe le a l) (a :: l) := by
  induction l with
  | nil => exact List.Perm.refl _
  | cons b t ih =>
    simp only [insertLe]
    split
    · exact List.Perm.refl _
    · exact (ih.cons b).trans (List.Perm.swap a b t)

theorem isort_perm {α : Type} (le : α → α → Bool) (l : List α) :
    List.Perm (isort le l) l := by
  induction l with
  | nil => exact List.Perm.refl _
  | cons x xs ih => exact (insertLe_perm le x (isort le xs)).trans (ih.cons x)

theorem mem_insertLe {α : Type} {le : α → α → Bool} {x a : α} {l : List α} :
    x ∈ insertLe le a l ↔ x = a ∨ x ∈ l := by
  rw [(insertLe_perm le a l).mem_iff, List.mem_cons]

theorem le_total_of_not {α : Type} {le : α → α → Bool}
    (htot : ∀ a b : α, le a b || le b a) {a b : α}
    (h : ¬ le a b = true) : le b a = true := by
  have h2 := htot a b
  cases hab : le a b with
  | true => exact absurd hab h
  | false => rw [hab] at h2; simpa using h2

theorem sortedB_insertLe {α : Type} {le : α → α → Bool}
    (htot : ∀ a b : α, le a b || le b a)
    (htrans : ∀ a b c : α, le a b = true → le b c = true → le a c = true)
    {a : α} {l : List α} (h : SortedB le l) :
    SortedB le (insertLe le a l) := by
  induction l with
  | nil => exact List.pairwise_singleton _ _
  | cons b t ih =>
    obtain ⟨hb, ht⟩ := List.pairwise_cons.mp h
    simp only [insertLe]
    split
    · rename_i hab
      exact List.Pairwise.cons
        (fun x hx => by
          rcases List.mem_cons.mp hx with rfl | hx
          · exact hab
          · exact htrans a b x hab (hb x hx))
        (List.Pairwise.cons hb ht)
    · rename_i hab
      refine List.Pairwise.cons (fun x hx => ?_) (ih ht)
      rcases mem_insertLe.mp hx with rfl | hx
      · exact le_total_of_not htot hab
      · exact hb x hx

theorem isort_sortedB {α : Type} {le : α → α → Bool}
    (htot : ∀ a b : α, le a b || le b a)
    (htrans : ∀ a b c : α, le a b = true → le b c = true → le a c = true)
    (l : List α) : SortedB le (isort le l) := by
  induction l with
  | nil => exact List.Pairwise.nil
  | cons x xs ih => exact sortedB_insertLe htot htrans ih

theorem insertLe_of_forall_le {α : Type} {le : α → α → Bool} {a : α} {l : List α}
    (h : ∀ x ∈ l, le a x = true) : insertLe le a l = a :: l := by
  cases l with
  | nil => rfl
  | cons b t =>
    simp only [insertLe]
    rw [if_pos (h b (List.mem_cons_self b t))]

theorem isort_of_sortedB {α : Type} {le : α → α → Bool} {l : List α}
    (h : SortedB le l) : isort le l = l := by
  induction l with
  | nil => rfl
  | cons x xs ih =>
    obtain ⟨hx, hxs⟩ := List.pairwise_cons.mp h
    show insertLe le x (isort le xs) = x :: xs
    rw [ih hxs, insertLe_of_forall_le hx]

theorem filter_insertLe_neg {α : Type} {le : α → α → Bool} (p : α → Bool)
    {a : α} (l : List α) (hpa : p a = false) :
    (insertLe le a l).filter p = l.filter p := by
  induction l with
  | nil => simp [insertLe, List.filter_cons, hpa]
  | cons b t ih =>
    simp only [insertLe]
    split
    · simp [List.filter_cons, hpa]
    · simp only [List.filter_cons, ih]

theorem filter_insertLe_pos {α : Type} {le : α → α → Bool}
    (htrans : ∀ a b c : α, le a b = true → le b c = true → le a c = true)
    (p : α → Bool) {a : α} {l : List α} (h : SortedB le l) (hpa : p a = true) :
    (insertLe le a l).filter p = insertLe le a (l.filter p) := by
  induction l with
  | nil => simp [insertLe, List.filter_cons, hpa]
  | cons b t ih =>
    obtain ⟨hb, ht⟩ := List.pairwise_cons.mp h
    simp only [insertLe]
    split
    · rename_i hab
      cases hpb : p b with
      | true =>
        simp only [List.filter_cons, hpa, hpb, cond_true]
        show a :: b :: t.filter p = insertLe le a (b :: t.filter p)
        simp only [insertLe]
        rw [if_pos hab]
      | false =>
        simp only [List.filter_cons, hpa, hpb, cond_true, cond_false]
        refine (insertLe_of_forall_le (fun x hx => ?_)).symm
        exact htrans a b x hab (hb x (List.mem_of_mem_filter hx))
    · rename_i hab
      cases hpb : p b with
      | true =>
        simp only [List.filter_cons, hpb, cond_true, ih ht]
        show b :: insertLe le a (t.filter p) = insertLe le a (b :: t.filter p)
        simp only [insertLe]
        rw [if_neg hab]
      | false =>
        simp [List.filter_cons, hpb, ih ht]

theorem isort_filter {α : Type} {le : α → α → Bool}
    (htot : ∀ a b : α, le a b || le b a)
    (htrans : ∀ a b c : α, le a b = true → le b c = true → le a c = true)
    (p : α → Bool) (l : List α) :
    (isort le l).filter p = isort le (l.filter p) := by
  induction l with
  | nil => rfl
  | cons x xs ih =>
    show (insertLe le x (isort le xs)).filter p = isort le ((x :: xs).filter p)
    cases hpx : p x with
    | true =>
      rw [filter_insertLe_pos htrans p (isort_sortedB htot htrans xs) hpx, ih]
      simp only [List.filter_cons, hpx, cond_true]
      rfl
    | false =>
      rw [filter_insertLe_neg p _ hpx, ih]
      simp [List.filter_cons, hpx]

/-! ## Order facts for the key comparison -/

/-- Strict order on sort-key values corresponding to `svCmp` (numbers below
strings, mirroring the type order of groq-js `order()`). -/
def svLtP : SValue → SValue → Prop
  | .num a, .num b => a < b
  | .str a, .str b => strLtB a b = true
  | .num _, .str _ => True
  | .str _, .num _ => False

theorem charListLtB_irrefl (l : List Char) : charListLtB l l = false := by
  induction l with
  | nil => rfl
  | cons a as ih => simp [charListLtB, ih]

theorem char_eq_of_toNat_eq {a b : Char} (h : a.toNat = b.toNat) : a = b :=
  Char.ext (UInt32.eq_of_val_eq (Fin.ext h))

theorem charListLtB_trans {a b c : List Char} (h1 : charListLtB a b = true)
    (h2 : charListLtB b c = true) : charListLtB a c = true := by
  induction a generalizing b c with
  | nil =>
    cases b with
    | nil => cases h1
    | cons y ys =>
      cases c with
      | nil => cases h2
      | cons z zs => rfl
  | cons x xs ih =>
    cases b with
    | nil => cases h1
    | cons y ys =>
      cases c with
      | nil => cases h2
      | cons z zs =>
        simp only [charListLtB] at h1 h2 ⊢
        split at h1
        · rename_i hxy
          split at h2
          · rename_i hyz
            rw [if_pos (Nat.lt_trans hxy hyz)]
          · rename_i hyz
            split at h2
            · cases h2
            · rename_i hzy
              rw [if_pos (by omega)]
        · rename_i hxy
          split at h1
          · cases h1
          · rename_i hyx
            split at h2
            · rename_i hyz
              rw [if_pos (by omega)]
            · rename_i hyz
              split at h2
              · cases h2
              · rename_i hzy
                rw [if_neg (by omega), if_neg (by omega)]
                exact ih h1 h2

theorem charListLtB_asymm {a b : List Char} (h1 : charListLtB a b = true)
    (h2 : charListLtB b a = true) : False := by
  induction a generalizing b with
  | nil =>
    cases b with
    | nil => cases h1
    | cons y ys => cases h2
  | cons x xs ih =>
    cases b with
    | nil => cases h1
    | cons y ys =>
      simp only [charListLtB] at h1 h2
      split at h1
      · rename_i hxy
        split at h2
        · rename_i hyx; omega
        · cases h2
      · rename_i hxy
        split at h1
        · cases h1
        · rename_i hyx
          split at h2
          · rename_i h; exact absurd h hyx
          · exact ih h1 h2

theorem charListLtB_connex {a b : List Char} (h1 : charListLtB a b = false)
    (h2 : charListLtB b a = false) : a = b := by
  induction a generalizing b with
  | nil =>
    cases b with
    | nil => rfl
    | cons y ys => cases h1
  | cons x xs ih =>
    cases b with
    | nil => cases h2
    | cons y ys =>
      simp only [charListLtB] at h1 h2
      split at h1
      · cases h1
      · rename_i hxy
        split at h1
        · rename_i hyx
          rw [if_pos hyx] at h2
          cases h2
        · rename_i hyx
          split at h2
          all_goals first
            | (rename_i h; exact absurd h hyx)
            | (rw [char_eq_of_toNat_eq (by omega : x.toNat = y.toNat), ih h1 h2])

theorem strLtB_irrefl (s : String) : strLtB s s = false := charListLtB_irrefl s.data

theorem strLtB_trans {a b c : String} (h1 : strLtB a b = true) (h2 : strLtB b c = true) :
    strLtB a c = true := charListLtB_trans h1 h2

theorem strLtB_asymm {a b : String} (h1 : strLtB a b = true) (h2 : strLtB b a = true) :
    False := charListLtB_asymm h1 h2

theorem strLtB_connex {a b : String} (h1 : strLtB a b = false) (h2 : strLtB b a = false) :
    a = b := String.ext (charListLtB_connex h1 h2)

theorem iteOrd_eq_lt_iff (x y : Bool) :
    ((if x then Ordering.lt else if y then Ordering.gt else Ordering.eq) =
      Ordering.lt) ↔ x = true := by
  cases x <;> cases y <;> decide

theorem iteOrd_eq_gt_iff (x y : Bool) :
    ((if x then Ordering.lt else if y then Ordering.gt else Ordering.eq) =
      Ordering.gt) ↔ (x = false ∧ y = true) := by
  cases x <;> cases y <;> decide

theorem iteOrd_eq_eq_iff (x y : Bool) :
    ((if x then Ordering.lt else if y then Ordering.gt else Ordering.eq) =
      Ordering.eq) ↔ (x = false ∧ y = false) := by
  cases x <;> cases y <;> decide

theorem cmpIte_eq_eq_iff {β : Type} [LinearOrder β] (a b : β)
    [ha : Decidable (a < b)] [hb : Decidable (b < a)] :
    (if a < b then Ordering.lt else if b < a then Ordering.gt else Ordering.eq) =
      Ordering.eq ↔ a = b := by
  split_ifs with h1 h2
  · constructor
    · intro h; cases h
    · rintro rfl; exact absurd h1 (lt_irrefl a)
  · constructor
    · intro h; cases h
    · rintro rfl; exact absurd h2 (lt_irrefl a)
  · exact ⟨fun _ => le_antisymm (not_lt.mp h2) (not_lt.mp h1), fun _ => rfl⟩

theorem cmpIte_eq_lt_iff {β : Type} [LinearOrder β] (a b : β)
    [ha : Decidable (a < b)] [hb : Decidable (b < a)] :
    (if a < b then Ordering.lt else if b < a then Ordering.gt else Ordering.eq) =
      Ordering.lt ↔ a < b := by
  split_ifs with h1 h2
  · simp [h1]
  · constructor
    · intro h; cases h
    · intro h; exact absurd h h1
  · constructor
    · intro h; cases h
    · intro h; exact absurd h h1

theorem cmpIte_eq_gt_iff {β : Type} [LinearOrder β] (a b : β)
    [ha : Decidable (a < b)] [hb : Decidable (b < a)] :
    (if a < b then Ordering.lt else if b < a then Ordering.gt else Ordering.eq) =
      Ordering.gt ↔ b < a := by
  split_ifs with h1 h2
  · constructor
    · intro h; cases h
    · intro h; exact absurd h1 (lt_asymm h)
  · simp [h2]
  · constructor
    · intro h; cases h
    · intro h; exact absurd h h2

theorem svCmp_eq_iff (a b : SValue) : svCmp a b = .eq ↔ a = b := by
  cases a <;> cases b
  · simp only [svCmp]; rw [cmpIte_eq_eq_iff]; simp
  · simp [svCmp]
  · simp [svCmp]
  · rename_i s t
    simp only [svCmp]
    rw [iteOrd_eq_eq_iff]
    constructor
    · rintro ⟨h1, h2⟩; rw [strLtB_connex h1 h2]
    · intro h
      injection h with h
      subst h
      exact ⟨strLtB_irrefl s, strLtB_irrefl s⟩

theorem svCmp_lt_iff (a b : SValue) : svCmp a b = .lt ↔ svLtP a b := by
  cases a <;> cases b
  · simp only [svCmp]; rw [cmpIte_eq_lt_iff]; simp [svLtP]
  · simp [svCmp, svLtP]
  · simp [svCmp, svLtP]
  · simp only [svCmp]; rw [iteOrd_eq_lt_iff]; simp [svLtP]

theorem svCmp_gt_iff (a b : SValue) : svCmp a b = .gt ↔ svLtP b a := by
  cases a <;> cases b
  · simp only [svCmp]; rw [cmpIte_eq_gt_iff]; simp [svLtP]
  · simp [svCmp, svLtP]
  · simp [svCmp, svLtP]
  · rename_i s t
    simp only [svCmp]
    rw [iteOrd_eq_gt_iff]
    simp only [svLtP]
    constructor
    · rintro ⟨h1, h2⟩; exact h2
    · intro h
      refine ⟨?_, h⟩
      cases hst : strLtB s t with
      | false => rfl
      | true => exact absurd (strLtB_asymm hst h) (fun x => x)

theorem svLtP_trans {a b c : SValue} (h1 : svLtP a b) (h2 : svLtP b c) : svLtP a c := by
  cases a <;> cases b <;> cases c <;> simp only [svLtP] at * <;>
    first | trivial | exact lt_trans h1 h2 | exact strLtB_trans h1 h2

theorem svLtP_asymm {a b : SValue} (h1 : svLtP a b) (h2 : svLtP b a) : False := by
  cases a <;> cases b <;> simp only [svLtP] at * <;>
    first | trivial | exact lt_asymm h1 h2 | exact strLtB_asymm h1 h2

theorem svLtP_irrefl (a : SValue) : ¬ svLtP a a := fun h => svLtP_asymm h h

theorem svLtP_connex {a b : SValue} (h1 : ¬ svLtP a b) (h2 : ¬ svLtP b a) : a = b := by
  rw [← svCmp_eq_iff]
  cases h : svCmp a b with
  | eq => rfl
  | lt => exact absurd ((svCmp_lt_iff a b).mp h) h1
  | gt => exact absurd ((svCmp_gt_iff a b).mp h) h2

theorem docLeAsc_iff (a b : Doc) :
    docLeAsc a b = true ↔ ¬ svLtP b.orderVal a.orderVal := by
  rw [docLeAsc, ← svCmp_gt_iff]
  cases h : svCmp a.orderVal b.orderVal <;> decide

theorem docLeDesc_iff (a b : Doc) :
    docLeDesc a b = true ↔ ¬ svLtP a.orderVal b.orderVal := by
  rw [docLeDesc, ← svCmp_lt_iff]
  cases h : svCmp a.orderVal b.orderVal <;> decide

theorem docLeAsc_total : ∀ a b : Doc, docLeAsc a b || docLeAsc b a := by
  intro a b
  by_cases h : svLtP b.orderVal a.orderVal
  · have hba : docLeAsc b a = true := (docLeAsc_iff b a).mpr (fun h' => svLtP_asymm h h')
    rw [hba]; simp
  · rw [(docLeAsc_iff a b).mpr h]; simp

theorem docLeAsc_trans : ∀ a b c : Doc,
    docLeAsc a b = true → docLeAsc b c = true → docLeAsc a c = true := by
  intro a b c h1 h2
  rw [docLeAsc_iff] at h1 h2 ⊢
  intro hca
  by_cases hab : svLtP a.orderVal b.orderVal
  · exact h2 (svLtP_trans hca hab)
  · have : a.orderVal = b.orderVal := svLtP_connex hab h1
    exact h2 (this ▸ hca)

theorem docLeDesc_total : ∀ a b : Doc, docLeDesc a b || docLeDesc b a := by
  intro a b
  by_cases h : svLtP a.orderVal b.orderVal
  · have hba : docLeDesc b a = true := (docLeDesc_iff b a).mpr (fun h' => svLtP_asymm h h')
    rw [hba]; simp
  · rw [(docLeDesc_iff a b).mpr h]; simp

theorem docLeDesc_trans : ∀ a b c : Doc,
    docLeDesc a b = true → docLeDesc b c = true → docLeDesc a c = true := by
  intro a b c h1 h2
  rw [docLeDesc_iff] at h1 h2 ⊢
  intro hac
  by_cases hcb : svLtP c.orderVal b.orderVal
  · exact h1 (svLtP_trans hac hcb)
  · have : b.orderVal = c.orderVal := svLtP_connex h2 hcb
    exact h1 (this ▸ hac)

/-- Count of filter-matching, draft-resolved documents (the value the
`numPages` count query computes over a dataset). -/
def logicalCount (ds : List Doc) (filt : Doc → Bool) : Nat :=
  (ds.filter (fun d => filt d && visibleCode ds d)).length

/-- Two documents with equal sort keys whose raw dataset order disagrees
with ascending identifier order. -/
def tieRawDS : List Doc := [⟨"b", .num 1⟩, ⟨"a", .num 1⟩]

/-- Paginator over `tieRawDS`, ascending, page size 2. -/
def tieRawOpts : PaginatedQueryOptions Nat :=
  { client := groqClient tieRawDS, filt := fun _ => true, orderField := "order",
    sortAsc := true, pageSize := 2 }

/-- The spec's draft test: the identifier carries the `drafts.` prefix. -/
def isDraftSpec (id : String) : Bool := id.data.take 7 == "drafts.".data

/-- The spec's published identifier: the suffix after the `drafts.` prefix. -/
def publishedIdSpec (id : String) : String := ⟨id.data.drop 7⟩

/-- Modelled from the spec (§4.1, for the refinement comparison with the
code's overlay filter): the logical document set
L = \{ d : ¬isDraft d \} ∪ \{ d : isDraft d ∧ publishedIdOf d ∉ ids \}. -/
def logicalSetSpec (ds : List Doc) : List Doc :=
  ds.filter (fun d =>
    !isDraftSpec d._id || !(ds.any (fun e => e._id == publishedIdSpec d._id)))

/-- An identifier shape constraint: when the `drafts.` prefix is present the
suffix is nonempty and contains no further dot. -/
def goodId (id : String) : Prop :=
  id.data.take 7 = "drafts.".data → (id.data.drop 7 ≠ [] ∧ '.' ∉ id.data.drop 7)

instance goodId.instDecidable (id : String) : Decidable (goodId id) := by
  unfold goodId; infer_instance

/-- A draft whose suffix contains a dot, next to its published counterpart. -/
def dottedDraftDS : List Doc := [⟨"drafts.a.b", .num 1⟩, ⟨"a.b", .num 2⟩]

/-- A dataset of well-shaped draft identifiers for the C5 witness. -/
def draftWitnessDS : List Doc :=
  [⟨"drafts.a", .num 1⟩, ⟨"a", .num 1⟩, ⟨"drafts.b", .num 2⟩]

/-- The visible (draft-resolved), filter-matching documents in raw dataset
order. -/
def visibleFiltered (ds : List Doc) (filt : Doc → Bool) : List Doc :=
  ds.filter (fun d => filt d && visibleCode ds d)

/-- The sorted logical sequence whose offset windows are the pages. -/
def sortedLogical (ds : List Doc) (filt : Doc → Bool) (asc : Bool) : List Doc :=
  orderSort asc (visibleFiltered ds filt)

/-- The `k`-th page of the sorted logical sequence, page size `p`. -/
def pageWindow (ds : List Doc) (filt : Doc → Bool) (asc : Bool) (p k : Nat) : List Doc :=
  ((sortedLogical ds filt asc).drop (k * p)).take p

/-- Descending configuration over `sampleDS`, page size 1. -/
def descOpts : PaginatedQueryOptions Nat :=
  { client := groqClient sampleDS, filt := fun _ => true, orderField := "order",
    sortAsc := false, pageSize := 1 }

/-- Ascending dataset with a tie stored out of identifier order. -/
def tieNextDS : List Doc := [⟨"b", .num 1⟩, ⟨"a", .num 1⟩, ⟨"c", .num 2⟩]

/-- Paginator over `tieNextDS`, ascending, page size 1. -/
def tieNextOpts : PaginatedQueryOptions Nat :=
  { client := groqClient tieNextDS, filt := fun _ => true, orderField := "order",
    sortAsc := true, pageSize := 1 }

/-- Ascending dataset with a tie group split by a page boundary. -/
def tiePrevDS : List Doc :=
  [⟨"a", .num 1⟩, ⟨"b", .num 2⟩, ⟨"c", .num 2⟩, ⟨"d", .num 3⟩]

/-- Paginator over `tiePrevDS`, ascending, page size 1. -/
def tiePrevOpts : PaginatedQueryOptions Nat :=
  { client := groqClient tiePrevDS, filt := fun _ => true, orderField := "order",
    sortAsc := true, pageSize := 1 }

/-- Dataset whose sort keys are strings. -/
def strDS : List Doc := [⟨"x", .str "aa"⟩, ⟨"y", .str "bb"⟩]

/-- Paginator over `strDS`, ascending, page size 1. -/
def strOpts : PaginatedQueryOptions Nat :=
  { client := groqClient strDS, filt := fun _ => true, orderField := "order",
    sortAsc := true, pageSize := 1 }

/-! ## C9: fresh-state fallback -/

/-- **C9**: on a fresh paginator (`currentPage` still `undefined`), both
`nextPage()` and `previousPage()` are literally `getPage(0)`: same query,
same returned sequence, same resulting state. -/
theorem fresh_nextPage_previousPage_eq_getPage0 {ε : Type}
    (opts : PaginatedQueryOptions ε) (st : PQState) (h : st.currentPage = none) :
    nextPage opts st = getPage opts 0 st ∧ previousPage opts st = getPage opts 0 st := by
  constructor <;> simp only [nextPage, previousPage, h]

/-- Witness for C9 at a concrete fresh paginator. -/
theorem fresh_nextPage_previousPage_eq_getPage0_witness :
    initState.currentPage = none ∧
      (nextPage sampleOpts initState = getPage sampleOpts 0 initState ∧
        previousPage sampleOpts initState = getPage sampleOpts 0 initState) :=
  ⟨rfl, fresh_nextPage_previousPage_eq_getPage0 sampleOpts initState rfl⟩

/-! ## C10: `currentPage` never returns to `undefined` -/

theorem saveBounds?_currentPage {st st' : PQState} {l : List Doc}
    (h : saveBounds? st l = some st') : st'.currentPage = st.currentPage := by
  cases l with
  | nil => cases h
  | cons d t =>
    simp only [saveBounds?, Option.some.injEq] at h
    rw [← h]

theorem getPage_fetch_error {ε : Type} {opts : PaginatedQueryOptions ε} {page : Int}
    {e : ε} (st : PQState)
    (h : opts.client.fetchList (getPageQuery opts page) = .error e) :
    getPage opts page st = (.error (.fetch e), st) := by
  unfold getPage; rw [h]

theorem getPage_fetch_ok {ε : Type} {opts : PaginatedQueryOptions ε} {page : Int}
    {results : List Doc} (st : PQState)
    (h : opts.client.fetchList (getPageQuery opts page) = .ok results) :
    getPage opts page st =
      match saveBounds? { st with currentPage := some page } results with
      | none => (.error .emptyBoundsTypeError, { st with currentPage := some page })
      | some st2 => (.ok results, st2) := by
  unfold getPage; rw [h]

theorem nextPage_none {ε : Type} {opts : PaginatedQueryOptions ε} {st : PQState}
    (h : st.currentPage = none) : nextPage opts st = getPage opts 0 st := by
  unfold nextPage; rw [h]

theorem nextPage_fetch_error {ε : Type} {opts : PaginatedQueryOptions ε} {st : PQState}
    {cur : Int} {e : ε} (hc : st.currentPage = some cur)
    (h : opts.client.fetchList (nextPageQuery opts st) = .error e) :
    nextPage opts st = (.error (.fetch e), st) := by
  unfold nextPage; rw [hc, h]

theorem nextPage_fetch_ok {ε : Type} {opts : PaginatedQueryOptions ε} {st : PQState}
    {cur : Int} {results : List Doc} (hc : st.currentPage = some cur)
    (h : opts.client.fetchList (nextPageQuery opts st) = .ok results) :
    nextPage opts st =
      match saveBounds?
          { st with currentPage := some (if cur == 0 then 0 else cur + 1) } results with
      | none => (.error .emptyBoundsTypeError,
          { st with currentPage := some (if cur == 0 then 0 else cur + 1) })
      | some st2 => (.ok results, st2) := by
  unfold nextPage; rw [hc, h]

theorem previousPage_none {ε : Type} {opts : PaginatedQueryOptions ε} {st : PQState}
    (h : st.currentPage = none) : previousPage opts st = getPage opts 0 st := by
  unfold previousPage; rw [h]

theorem previousPage_fetch_error {ε : Type} {opts : PaginatedQueryOptions ε} {st : PQState}
    {cur : Int} {e : ε} (hc : st.currentPage = some cur)
    (h : opts.client.fetchList (previousPageQuery opts st) = .error e) :
    previousPage opts st = (.error (.fetch e), st) := by
  unfold previousPage; rw [hc, h]

theorem previousPage_fetch_ok {ε : Type} {opts : PaginatedQueryOptions ε} {st : PQState}
    {cur : Int} {results : List Doc} (hc : st.currentPage = some cur)
    (h : opts.client.fetchList (previousPageQuery opts st) = .ok results) :
    previousPage opts st =
      match saveBounds?
          { st with currentPage := some (if cur == 0 then 0 else cur - 1) } results with
      | none => (.error .emptyBoundsTypeError,
          { st with currentPage := some (if cur == 0 then 0 else cur - 1) })
      | some st2 => (.ok results, st2) := by
  unfold previousPage; rw [hc, h]

theorem getPage_state_cases {ε : Type} (opts : PaginatedQueryOptions ε)
    (page : Int) (st : PQState) :
    (getPage opts page st).2.currentPage = some page ∨
      ∃ e, getPage opts page st = (.error (.fetch e), st) := by
  cases hf : opts.client.fetchList (getPageQuery opts page) with
  | error e => exact Or.inr ⟨e, getPage_fetch_error st hf⟩
  | ok results =>
    left
    rw [getPage_fetch_ok st hf]
    cases hs : saveBounds? { st with currentPage := some page } results with
    | none => rfl
    | some st2 => exact saveBounds?_currentPage hs

theorem nextPage_state_cases {ε : Type} (opts : PaginatedQueryOptions ε) (st : PQState) :
    (nextPage opts st).2.currentPage.isSome = true ∨
      ∃ e, nextPage opts st = (.error (.fetch e), st) := by
  cases h : st.currentPage with
  | none =>
    rw [nextPage_none h]
    rcases getPage_state_cases opts 0 st with hc | ⟨e, he⟩
    · left; rw [hc]; rfl
    · exact Or.inr ⟨e, he⟩
  | some cur =>
    cases hf : opts.client.fetchList (nextPageQuery opts st) with
    | error e => exact Or.inr ⟨e, nextPage_fetch_error h hf⟩
    | ok results =>
      left
      rw [nextPage_fetch_ok h hf]
      cases hs : saveBounds?
          { st with currentPage := some (if cur == 0 then 0 else cur + 1) } results with
      | none => rfl
      | some st2 => rw [saveBounds?_currentPage hs]; rfl

theorem previousPage_state_cases {ε : Type} (opts : PaginatedQueryOptions ε) (st : PQState) :
    (previousPage opts st).2.currentPage.isSome = true ∨
      ∃ e, previousPage opts st = (.error (.fetch e), st) := by
  cases h : st.currentPage with
  | none =>
    rw [previousPage_none h]
    rcases getPage_state_cases opts 0 st with hc | ⟨e, he⟩
    · left; rw [hc]; rfl
    · exact Or.inr ⟨e, he⟩
  | some cur =>
    cases hf : opts.client.fetchList (previousPageQuery opts st) with
    | error e => exact Or.inr ⟨e, previousPage_fetch_error h hf⟩
    | ok results =>
      left
      rw [previousPage_fetch_ok h hf]
      cases hs : saveBounds?
          { st with currentPage := some (if cur == 0 then 0 else cur - 1) } results with
      | none => rfl
      | some st2 => rw [saveBounds?_currentPage hs]; rfl

theorem runOp_state_cases {ε : Type} (opts : PaginatedQueryOptions ε) (op : POp)
    (st : PQState) :
    (runOp opts op st).2.currentPage.isSome = true ∨
      ∃ e, runOp opts op st = (.error (.fetch e), st) := by
  cases op with
  | get page =>
    rcases getPage_state_cases opts page st with hc | ⟨e, he⟩
    · left; show (getPage opts page st).2.currentPage.isSome = true; rw [hc]; rfl
    · exact Or.inr ⟨e, he⟩
  | next => exact nextPage_state_cases opts st
  | prev => exact previousPage_state_cases opts st

/-- **C10**: once `currentPage` is a defined number it stays defined after
any operation, and every operation that returns a page successfully leaves
`currentPage` defined — no operation ever resets it to `undefined`, so the
fresh-state fallback can only fire before the first successful fetch. -/
theorem currentPage_never_reset {ε : Type} (opts : PaginatedQueryOptions ε)
    (op : POp) (st : PQState) :
    (st.currentPage.isSome = true → (runOp opts op st).2.currentPage.isSome = true) ∧
    (∀ r, (runOp opts op st).1 = .ok r → (runOp opts op st).2.currentPage.isSome = true) := by
  rcases runOp_state_cases opts op st with hc | ⟨e, he⟩
  · exact ⟨fun _ => hc, fun _ _ => hc⟩
  · constructor
    · intro hs; rw [he]; exact hs
    · intro r hr; rw [he] at hr; cases hr

/-- Witness for C10 at a concrete positioned state and operation. -/
theorem currentPage_never_reset_witness :
    ((getPage sampleOpts 0 initState).2.currentPage.isSome = true →
      (runOp sampleOpts .next (getPage sampleOpts 0 initState).2).2.currentPage.isSome = true) ∧
    (∀ r, (runOp sampleOpts .next (getPage sampleOpts 0 initState).2).1 = .ok r →
      (runOp sampleOpts .next (getPage sampleOpts 0 initState).2).2.currentPage.isSome = true) :=
  currentPage_never_reset sampleOpts .next (getPage sampleOpts 0 initState).2

/-! ## C8: client rejection propagates unchanged, state untouched -/

/-- **C8**: when the client's fetch rejects, every operation rejects with
that same transport error and the cursor state is exactly what it was
before the call — the state is only mutated inside the success
continuation. -/
theorem fetch_rejection_propagates {ε : Type} (opts : PaginatedQueryOptions ε)
    (st : PQState) (page : Int) (e : ε)
    (hL : ∀ q, opts.client.fetchList q = .error e)
    (hC : ∀ q, opts.client.fetchCount q = .error e) :
    getPage opts page st = (.error (.fetch e), st) ∧
    nextPage opts st = (.error (.fetch e), st) ∧
    previousPage opts st = (.error (.fetch e), st) ∧
    numPages opts = .error (.fetch e) := by
  refine ⟨?_, ?_, ?_, ?_⟩
  · unfold getPage; rw [hL]
  · unfold nextPage
    cases h : st.currentPage with
    | none => unfold getPage; rw [hL]
    | some cur => rw [hL]
  · unfold previousPage
    cases h : st.currentPage with
    | none => unfold getPage; rw [hL]
    | some cur => rw [hL]
  · unfold numPages; rw [hC]

/-- Witness for C8 with the always-rejecting client. -/
theorem fetch_rejection_propagates_witness :
    getPage failOpts 7 initState = (.error (.fetch 0), initState) ∧
    nextPage failOpts initState = (.error (.fetch 0), initState) ∧
    previousPage failOpts initState = (.error (.fetch 0), initState) ∧
    numPages failOpts = .error (.fetch 0) :=
  fetch_rejection_propagates failOpts initState 7 0 (fun _ => rfl) (fun _ => rfl)

/-! ## C3 (code bug): an empty fetch result throws instead of returning [] -/

/-- **C3** (code bug in the source): a fetch that returns zero rows does
not yield an empty sequence — `saveBounds` reads `results[0][order]` on the
empty array and throws, so the operation rejects; `currentPage` has even
already been updated, while the bounds stay as they were.  Both navigating
past the last page and fetching an empty page 0 exhibit it. -/
theorem empty_fetch_throws_typeError :
    (getPage emptyOpts 0 initState).1 = .error .emptyBoundsTypeError ∧
    (getPage emptyOpts 0 initState).2.currentPage = some 0 ∧
    (nextPage sampleOpts (getPage sampleOpts 2 initState).2).1 =
      .error .emptyBoundsTypeError ∧
    (nextPage sampleOpts (getPage sampleOpts 2 initState).2).2.lastOrderFieldMax =
      some (.num 3) := by
  refine ⟨rfl, rfl, ?_, ?_⟩ <;> rfl

/-! ## C6 (code bug): no fail-fast validation of page index or page size -/

/-- **C6** (code bug in the source): `createPaginatedQuery` and `getPage`
perform no validation — a negative page index or a non-positive `pageSize`
still issues the round trip, observed here as the caller receiving exactly
the injected client's rejection instead of a local fail-fast error. -/
theorem no_fail_fast_validation :
    (getPage failOpts (-1) initState).1 = .error (.fetch 0) ∧
    (getPage { failOpts with pageSize := 0 } 2 initState).1 = .error (.fetch 0) ∧
    (getPage { failOpts with pageSize := -5 } 0 initState).1 = .error (.fetch 0) :=
  ⟨rfl, rfl, rfl⟩

/-! ## C7: numPages is the ceiling of the logical count -/

theorem mathCeilDiv_pos {c p : Nat} (hp : 0 < p) :
    mathCeilDiv c (p : Int) = (((c + p - 1) / p : Nat) : Int) := by
  have hp' : (0 : ℚ) < (p : ℚ) := by exact_mod_cast hp
  have hdm : p * ((c + p - 1) / p) + (c + p - 1) % p = c + p - 1 :=
    Nat.div_add_mod (c + p - 1) p
  have hmlt : (c + p - 1) % p < p := Nat.mod_lt _ hp
  rw [mathCeilDiv, Int.ceil_eq_iff]
  constructor
  · simp only [Int.cast_natCast]
    rw [lt_div_iff₀ hp']
    have hnat : p * ((c + p - 1) / p) < c + p := by omega
    have hq : (p : ℚ) * (((c + p - 1) / p : Nat) : ℚ) < (c : ℚ) + (p : ℚ) := by
      exact_mod_cast hnat
    nlinarith [hq]
  · simp only [Int.cast_natCast]
    rw [div_le_iff₀ hp']
    have hcn : c ≤ p * ((c + p - 1) / p) := by omega
    have hq : (c : ℚ) ≤ (p : ℚ) * (((c + p - 1) / p : Nat) : ℚ) := by
      exact_mod_cast hcn
    nlinarith [hq]

/-- **C7**: for every dataset, opaque filter, and positive page size,
`numPages()` returns the ceiling of the logical (draft-resolved), filtered
document count divided by the page size. -/
theorem numPages_is_ceil (ε : Type) (ds : List Doc) (filt : Doc → Bool)
    (ofield : String) (dir : Bool) (p : Nat) (hp : 0 < p) :
    numPages (ε := ε)
      { client := groqClient ds, filt := filt, orderField := ofield,
        sortAsc := dir, pageSize := (p : Int) } =
      .ok (((logicalCount ds filt + p - 1) / p : Nat) : Int) := by
  show Except.ok (mathCeilDiv (logicalCount ds filt) (p : Int)) = _
  rw [mathCeilDiv_pos hp]

/-- Witness for C7: three visible documents, page size 2, two pages. -/
theorem numPages_is_ceil_witness :
    0 < 2 ∧
      numPages (ε := Nat)
        { client := groqClient sampleDS, filt := fun _ => true, orderField := "order",
          sortAsc := true, pageSize := ((2 : Nat) : Int) } = .ok 2 := by
  refine ⟨by decide, ?_⟩
  have h := numPages_is_ceil Nat sampleDS (fun _ => true) "order" true 2 (by decide)
  rw [h]
  rfl

/-! ## C4: the sort has no identifier tiebreak; ties keep raw dataset order -/

theorem docLe_total (asc : Bool) : ∀ a b : Doc, docLe asc a b || docLe asc b a := by
  cases asc
  · exact docLeDesc_total
  · exact docLeAsc_total

theorem docLe_trans (asc : Bool) : ∀ a b c : Doc,
    docLe asc a b = true → docLe asc b c = true → docLe asc a c = true := by
  cases asc
  · exact docLeDesc_trans
  · exact docLeAsc_trans

theorem orderSort_filter (asc : Bool) (p : Doc → Bool) (l : List Doc) :
    (orderSort asc l).filter p = orderSort asc (l.filter p) :=
  isort_filter (docLe_total asc) (docLe_trans asc) p l

theorem docLe_of_eq_keys {asc : Bool} {a b : Doc} (h : a.orderVal = b.orderVal) :
    docLe asc a b = true := by
  cases asc
  · exact (docLeDesc_iff a b).mpr (h ▸ svLtP_irrefl a.orderVal)
  · exact (docLeAsc_iff a b).mpr (h ▸ svLtP_irrefl a.orderVal)

theorem orderSort_of_const_key {asc : Bool} {c : SValue} {l : List Doc}
    (h : ∀ d ∈ l, d.orderVal = c) : orderSort asc l = l :=
  isort_of_sortedB (List.pairwise_of_forall_mem_list
    (fun a ha b hb => docLe_of_eq_keys ((h a ha).trans (h b hb).symm)))

/-- **C4** (amended): every list query the paginator evaluates sorts only by
the primary order field, and the sort is stable — documents whose primary
values collide are returned in their raw dataset order, not in ascending
identifier order; the identifier enters only the cursor predicates of
`nextPage`/`previousPage`. -/
theorem pipeBody_ties_keep_raw_order (ds : List Doc) (q : PipeQuery) (c : SValue) :
    (pipeBody ds q).filter (fun d => d.orderVal == c) =
      ((pipeBase ds q).filter (visibleCode ds)).filter (fun d => d.orderVal == c) := by
  unfold pipeBody
  rw [List.filter_filter, orderSort_filter, List.filter_filter]
  refine orderSort_of_const_key (c := c) (fun d hd => ?_)
  have hpd := List.of_mem_filter hd
  rw [Bool.and_eq_true] at hpd
  exact eq_of_beq hpd.1

/-- **C4** (counterexample): with two visible documents sharing sort key 1
but stored in the order `b`, `a`, `getPage(0)` returns them as `[b, a]` even
though `"a" < "b"` — the query did not apply an ascending identifier
tiebreak. -/
theorem query_sort_no_id_tiebreak_counterexample :
    (getPage tieRawOpts 0 initState).1 =
      .ok [⟨"b", .num 1⟩, ⟨"a", .num 1⟩] ∧ strLtB "a" "b" = true :=
  ⟨rfl, rfl⟩

/-! ## C5: the draft/published overlay rule -/

theorem beq_comm' {α : Type} [BEq α] [LawfulBEq α] (a b : α) : (a == b) = (b == a) := by
  cases ha : a == b with
  | true => rw [eq_of_beq ha]; simp
  | false =>
    cases hb : b == a with
    | true => rw [eq_of_beq hb] at ha; simp at ha
    | false => rfl

theorem findSub_none {sep s : List Char} (hc : '.' ∈ sep) (hs : '.' ∉ s) :
    findSub sep s = none := by
  induction s with
  | nil =>
    unfold findSub
    rw [if_neg]
    intro h
    rw [eq_of_beq h] at hc
    cases hc
  | cons c t ih =>
    unfold findSub
    rw [if_neg, ih (fun hm => hs (List.mem_cons_of_mem c hm))]
    · rfl
    · intro h
      have hsub : sep ⊆ c :: t := (eq_of_beq h) ▸ List.take_subset _ _
      exact hs (hsub hc)

theorem findSub_append {sep s' : List Char} (hne : sep ≠ []) :
    findSub sep (sep ++ s') = some 0 := by
  cases hs : sep ++ s' with
  | nil =>
    cases sep with
    | nil => exact absurd rfl hne
    | cons c t => cases hs
  | cons c t =>
    show (if (c :: t).take sep.length == sep then some 0
      else (findSub sep t).map (· + 1)) = some 0
    rw [← hs, List.take_left]
    simp

theorem jsSplitAux_of_none {sep s : List Char} (h : findSub sep s = none) :
    ∀ n, jsSplitAux sep n s = [s] := by
  intro n
  cases n with
  | zero => rfl
  | succ m => show (match findSub sep s with
      | none => [s]
      | some i => s.take i :: jsSplitAux sep m (s.drop (i + sep.length))) = [s]
              rw [h]

theorem publishedIdCode_append {s : List Char} (hdot : '.' ∉ s) :
    publishedIdCode ⟨"drafts.".data ++ s⟩ = some ⟨s⟩ := by
  have hsep : '.' ∈ "drafts.".data := by decide
  have h0 : findSub "drafts.".data ("drafts.".data ++ s) = some 0 :=
    findSub_append (by decide)
  have h1 : findSub "drafts.".data s = none := findSub_none hsep hdot
  show ((jsSplitAux "drafts.".data (("drafts.".data ++ s).length + 1)
      ("drafts.".data ++ s)).map (fun l => (⟨l⟩ : String)))[1]? = some ⟨s⟩
  rw [show jsSplitAux "drafts.".data (("drafts.".data ++ s).length + 1)
      ("drafts.".data ++ s) =
      match findSub "drafts.".data ("drafts.".data ++ s) with
      | none => ["drafts.".data ++ s]
      | some i => ("drafts.".data ++ s).take i ::
          jsSplitAux "drafts.".data (("drafts.".data ++ s).length)
            (("drafts.".data ++ s).drop (i + "drafts.".data.length)) from rfl]
  simp only [h0, Nat.zero_add, List.drop_left, List.take_zero]
  rw [jsSplitAux_of_none h1]
  rfl

/-- **C5** (amended): the code treats as a draft exactly an identifier of
the form `drafts.<seg>` with one nonempty dot-free segment; on raw sets
whose `drafts.`-prefixed identifiers have that shape, the visible set is
exactly the spec's logical set L (drafts are excluded iff their published
identifier occurs in the raw set; everything else is kept). -/
theorem visible_eq_logicalSet (ds : List Doc) (hids : ∀ d ∈ ds, goodId d._id) :
    ds.filter (fun d => visibleCode ds d) = logicalSetSpec ds := by
  unfold logicalSetSpec
  refine List.filter_congr (fun d hd => ?_)
  unfold visibleCode
  cases hpre : (d._id.data.take 7 == "drafts.".data) with
  | false =>
    have hdc : isDraftCode d._id = false := by
      unfold isDraftCode; rw [hpre]; rfl
    have hds : isDraftSpec d._id = false := hpre
    rw [hdc, hds]
    rfl
  | true =>
    have htake : d._id.data.take 7 = "drafts.".data := eq_of_beq hpre
    obtain ⟨hne, hdot⟩ := hids d hd htake
    have hid : d._id = ⟨"drafts.".data ++ d._id.data.drop 7⟩ := by
      refine String.ext ?_
      show d._id.data = "drafts.".data ++ d._id.data.drop 7
      rw [← htake, List.take_append_drop]
    have hdc : isDraftCode d._id = true := by
      unfold isDraftCode
      rw [hpre]
      have h1 : (d._id.data.drop 7 == []) = false := by
        cases hq : (d._id.data.drop 7 == []) with
        | true => exact absurd (eq_of_beq hq) hne
        | false => rfl
      have h2 : (d._id.data.drop 7).contains '.' = false := by
        cases hq : (d._id.data.drop 7).contains '.' with
        | true => exact absurd (List.elem_iff.mp hq) hdot
        | false => rfl
      rw [h1, h2]
      rfl
    have hpub : publishedIdCode d._id = some (publishedIdSpec d._id) := by
      conv_lhs => rw [hid]
      rw [publishedIdCode_append hdot]
      rfl
    have hds : isDraftSpec d._id = true := hpre
    rw [hdc, hds, hpub]
    have hfun : (fun e : Doc => (some (publishedIdSpec d._id) == some e._id)) =
        (fun e : Doc => (e._id == publishedIdSpec d._id)) := by
      funext e
      show (publishedIdSpec d._id == e._id) = (e._id == publishedIdSpec d._id)
      exact beq_comm' _ _
    rw [hfun]

/-- Witness for C5 (amended) on a dataset of well-shaped identifiers:
`drafts.a` is hidden by its published `a`, `drafts.b` stays visible. -/
theorem visible_eq_logicalSet_witness :
    (∀ d ∈ draftWitnessDS, goodId d._id) ∧
      draftWitnessDS.filter (fun d => visibleCode draftWitnessDS d) =
        logicalSetSpec draftWitnessDS :=
  ⟨by decide, visible_eq_logicalSet draftWitnessDS (by decide)⟩

/-- **C5** (counterexample): the identifier `drafts.a.b` carries the
`drafts.` prefix and its published counterpart `a.b` is in the raw set, so
the claimed L excludes it — but `path("drafts.*")` does not match the
dotted suffix, the code does not treat it as a draft, and it stays visible:
the visible set is not L. -/
theorem draft_overlay_counterexample :
    isDraftSpec "drafts.a.b" = true ∧
    (dottedDraftDS.any (fun e => e._id == publishedIdSpec "drafts.a.b")) = true ∧
    visibleCode dottedDraftDS ⟨"drafts.a.b", .num 1⟩ = true ∧
    dottedDraftDS.filter (fun d => visibleCode dottedDraftDS d) ≠
      logicalSetSpec dottedDraftDS := by
  refine ⟨rfl, rfl, rfl, ?_⟩
  decide

/-! ## Keyset machinery for C1/C2 -/

theorem svGtB_num_true {m n : Int} (h : n < m) :
    svGtB (.num m) (some (.num n)) = true := by
  show ((some (if m < n then Ordering.lt else if n < m then Ordering.gt
      else Ordering.eq) : Option Ordering) == some Ordering.gt) = true
  rw [if_neg (by omega), if_pos h]
  rfl

theorem svGtB_num_false {m n : Int} (h : ¬ n < m) :
    svGtB (.num m) (some (.num n)) = false := by
  show ((some (if m < n then Ordering.lt else if n < m then Ordering.gt
      else Ordering.eq) : Option Ordering) == some Ordering.gt) = false
  split
  · rfl
  · rfl

theorem svLtB_num_true {m n : Int} (h : m < n) :
    svLtB (.num m) (some (.num n)) = true := by
  show ((some (if m < n then Ordering.lt else if n < m then Ordering.gt
      else Ordering.eq) : Option Ordering) == some Ordering.lt) = true
  rw [if_pos h]
  rfl

theorem svLtB_num_false {m n : Int} (h : ¬ m < n) :
    svLtB (.num m) (some (.num n)) = false := by
  show ((some (if m < n then Ordering.lt else if n < m then Ordering.gt
      else Ordering.eq) : Option Ordering) == some Ordering.lt) = false
  rw [if_neg h]
  split
  · rfl
  · rfl

theorem svEqB_num_true (n : Int) : svEqB (.num n) (some (.num n)) = true := by
  show (SValue.num n == SValue.num n) = true
  simp

theorem svEqB_num_false {m n : Int} (h : ¬ m = n) :
    svEqB (.num m) (some (.num n)) = false := by
  show (SValue.num m == SValue.num n) = false
  simp only [beq_eq_false_iff_ne, ne_eq, SValue.num.injEq]
  exact h

theorem interpBound_num {ε : Type} (opts : PaginatedQueryOptions ε) (n : Int) (d : Doc) :
    interpBound opts (some (.num n)) d = some (.num n) := rfl

theorem groqSlice_nat (a b : Nat) (xs : List Doc) :
    groqSlice (a : Int) (b : Int) xs = (xs.take b).drop a := by
  unfold groqSlice
  rw [if_neg (by omega), if_neg (by omega)]
  simp

theorem saveBounds?_eq {st : PQState} {l : List Doc} (h : l ≠ []) :
    saveBounds? st l = some { st with
      lastOrderFieldMin := some (l.head h).orderVal
      lastOrderFieldMax := some (l.getLast h).orderVal
      lastMinId := some (l.head h)._id
      lastMaxId := some (l.getLast h)._id } := by
  cases l with
  | nil => exact absurd rfl h
  | cons d t => rfl

theorem orderSort_sortedB (asc : Bool) (l : List Doc) :
    SortedB (docLe asc) (orderSort asc l) :=
  isort_sortedB (docLe_total asc) (docLe_trans asc) l

theorem orderSort_perm (asc : Bool) (l : List Doc) :
    List.Perm (orderSort asc l) l := isort_perm (docLe asc) l

theorem sorted_strict_asc {l : List Doc}
    (hdist : l.Pairwise (fun a b => a.orderVal ≠ b.orderVal)) :
    (orderSort true l).Pairwise (fun a b => svLtP a.orderVal b.orderVal) := by
  have hs : SortedB (docLe true) (orderSort true l) := orderSort_sortedB true l
  have hd : (orderSort true l).Pairwise (fun a b => a.orderVal ≠ b.orderVal) :=
    ((orderSort_perm true l).pairwise_iff (fun h => Ne.symm h)).mpr hdist
  refine (hs.and hd).imp ?_
  rintro a b ⟨hle, hne⟩
  have h1 : ¬ svLtP b.orderVal a.orderVal := (docLeAsc_iff a b).mp hle
  by_contra h2
  exact hne (svLtP_connex h2 h1)

theorem sorted_strict_desc {l : List Doc}
    (hdist : l.Pairwise (fun a b => a.orderVal ≠ b.orderVal)) :
    (orderSort false l).Pairwise (fun a b => svLtP b.orderVal a.orderVal) := by
  have hs : SortedB (docLe false) (orderSort false l) := orderSort_sortedB false l
  have hd : (orderSort false l).Pairwise (fun a b => a.orderVal ≠ b.orderVal) :=
    ((orderSort_perm false l).pairwise_iff (fun h => Ne.symm h)).mpr hdist
  refine (hs.and hd).imp ?_
  rintro a b ⟨hle, hne⟩
  have h1 : ¬ svLtP a.orderVal b.orderVal := (docLeDesc_iff a b).mp hle
  by_contra h2
  exact hne (svLtP_connex h1 h2)

theorem filter_nextPred_eq_drop {ε : Type} (opts : PaginatedQueryOptions ε)
    (st : PQState) {L : List Doc} {e : Nat} (he : e < L.length)
    (hstrict : L.Pairwise (fun a b => svLtP a.orderVal b.orderVal))
    (hnumL : ∀ d ∈ L, ∃ n, d.orderVal = SValue.num n)
    (hmaxV : st.lastOrderFieldMax = some (L[e]).orderVal)
    (hmaxI : st.lastMaxId = some (L[e])._id) :
    L.filter (nextPred opts st) = L.drop (e + 1) := by
  obtain ⟨nb, hnb⟩ := hnumL (L[e]) (L.getElem_mem he)
  have hpw : (L.take (e+1) ++ L.drop (e+1)).Pairwise
      (fun a b => svLtP a.orderVal b.orderVal) := by
    rw [List.take_append_drop]; exact hstrict
  obtain ⟨hpw1, hpw2, hcross⟩ := List.pairwise_append.mp hpw
  have hts : L.take (e+1) = L.take e ++ [L[e]] := by
    rw [List.take_succ, List.getElem?_eq_getElem he]
    rfl
  have hbmem : (L[e]) ∈ L.take (e+1) := by
    rw [hts]; exact List.mem_append_right _ (List.mem_singleton_self _)
  have htail : ∀ x ∈ L.drop (e+1), nextPred opts st x = true := by
    intro x hx
    obtain ⟨m, hm⟩ := hnumL x (List.mem_of_mem_drop hx)
    have hlt : svLtP (L[e]).orderVal x.orderVal := hcross _ hbmem _ hx
    rw [hnb, hm] at hlt
    have hnm : nb < m := by simpa [svLtP] using hlt
    unfold nextPred
    rw [hmaxV, hnb, hm, interpBound_num, svGtB_num_true hnm]
    rfl
  have hhead : ∀ x ∈ L.take (e+1), ¬ nextPred opts st x = true := by
    intro x hx
    rcases List.mem_append.mp (hts ▸ hx) with hx3 | hx3
    · have hpwtake : (L.take e ++ [L[e]]).Pairwise
          (fun a b => svLtP a.orderVal b.orderVal) := by
        rw [← hts]; exact hpw1
      obtain ⟨_, _, hcross2⟩ := List.pairwise_append.mp hpwtake
      have hlt : svLtP x.orderVal (L[e]).orderVal :=
        hcross2 x hx3 _ (List.mem_singleton_self _)
      obtain ⟨m, hm⟩ := hnumL x (List.mem_of_mem_take hx3)
      rw [hm, hnb] at hlt
      have hmn : m < nb := by simpa [svLtP] using hlt
      unfold nextPred
      rw [hmaxV, hnb, hm, interpBound_num, svGtB_num_false (by omega),
        svEqB_num_false (by omega)]
      simp
    · have hxb : x = L[e] := by simpa using hx3
      subst hxb
      unfold nextPred
      rw [hmaxV, hmaxI, hnb, interpBound_num, svGtB_num_false (by omega),
        svEqB_num_true]
      rw [show ((some ((L[e])._id)).getD "undefined") = (L[e])._id from rfl]
      rw [strLtB_irrefl]
      simp
  conv_lhs => rw [← List.take_append_drop (e+1) L]
  rw [List.filter_append, List.filter_eq_nil.mpr hhead,
    List.filter_eq_self.mpr htail, List.nil_append]

theorem filter_prevPred_eq_take {ε : Type} (opts : PaginatedQueryOptions ε)
    (st : PQState) {L : List Doc} {e : Nat} (he : e < L.length)
    (hstrict : L.Pairwise (fun a b => svLtP a.orderVal b.orderVal))
    (hnumL : ∀ d ∈ L, ∃ n, d.orderVal = SValue.num n)
    (hminV : st.lastOrderFieldMin = some (L[e]).orderVal)
    (hminI : st.lastMinId = some (L[e])._id) :
    L.filter (prevPred opts st) = L.take e := by
  obtain ⟨nb, hnb⟩ := hnumL (L[e]) (L.getElem_mem he)
  have hpw : (L.take e ++ L.drop e).Pairwise
      (fun a b => svLtP a.orderVal b.orderVal) := by
    rw [List.take_append_drop]; exact hstrict
  obtain ⟨hpw1, hpw2, hcross⟩ := List.pairwise_append.mp hpw
  have hde : L.drop e = (L[e]) :: L.drop (e+1) := List.drop_eq_getElem_cons he
  have hbmem : (L[e]) ∈ L.drop e := by
    rw [hde]; exact List.mem_cons_self _ _
  have hhead : ∀ x ∈ L.take e, prevPred opts st x = true := by
    intro x hx
    obtain ⟨m, hm⟩ := hnumL x (List.mem_of_mem_take hx)
    have hlt : svLtP x.orderVal (L[e]).orderVal := hcross _ hx _ hbmem
    rw [hm, hnb] at hlt
    have hmn : m < nb := by simpa [svLtP] using hlt
    unfold prevPred
    rw [hminV, hnb, hm, interpBound_num, svLtB_num_true hmn]
    rfl
  have htail : ∀ x ∈ L.drop e, ¬ prevPred opts st x = true := by
    intro x hx
    rw [hde] at hx
    rcases List.mem_cons.mp hx with hxb | hx3
    · subst hxb
      unfold prevPred
      rw [hminV, hminI, hnb, interpBound_num, svLtB_num_false (by omega),
        svEqB_num_true]
      rw [show ((some ((L[e])._id)).getD "undefined") = (L[e])._id from rfl]
      rw [strLtB_irrefl]
      simp
    · have hpw2' : (((L[e]) :: L.drop (e+1)).Pairwise
          (fun a b => svLtP a.orderVal b.orderVal)) := by
        rw [← hde]; exact hpw2
      have hlt : svLtP (L[e]).orderVal x.orderVal :=
        (List.pairwise_cons.mp hpw2').1 x hx3
      obtain ⟨m, hm⟩ := hnumL x (List.mem_of_mem_drop hx3)
      rw [hnb, hm] at hlt
      have hnm : nb < m := by simpa [svLtP] using hlt
      unfold prevPred
      rw [hminV, hnb, hm, interpBound_num, svLtB_num_false (by omega),
        svEqB_num_false (by omega)]
      simp
  conv_lhs => rw [← List.take_append_drop e L]
  rw [List.filter_append, List.filter_eq_self.mpr hhead,
    List.filter_eq_nil.mpr htail, List.append_nil]

theorem pipeBody_getPageQuery {ε : Type} (opts : PaginatedQueryOptions ε)
    (ds : List Doc) (page : Int) :
    pipeBody ds (getPageQuery opts page) = sortedLogical ds opts.filt opts.sortAsc := by
  unfold pipeBody pipeBase getPageQuery sortedLogical visibleFiltered
  rw [orderSort_filter]
  congr 1
  rw [List.filter_filter]
  refine List.filter_congr (fun d _ => ?_)
  show (visibleCode ds d && (opts.filt d && true)) = (opts.filt d && visibleCode ds d)
  cases opts.filt d <;> cases visibleCode ds d <;> rfl

theorem pipeBody_some (ds : List Doc) (f pf : Doc → Bool) (asc : Bool)
    (s t : Int) (ro : Option Bool) :
    pipeBody ds
      { filt := f, pageFilter := some pf, sortAsc := asc,
        start := s, stop := t, reorder := ro } =
      (sortedLogical ds f asc).filter pf := by
  unfold pipeBody pipeBase sortedLogical visibleFiltered
  rw [orderSort_filter, orderSort_filter]
  congr 1
  rw [List.filter_filter, List.filter_filter]
  refine List.filter_congr (fun d _ => ?_)
  show (visibleCode ds d && (f d && pf d)) = (pf d && (f d && visibleCode ds d))
  cases f d <;> cases pf d <;> cases visibleCode ds d <;> rfl

theorem evalPipe_getPageQuery (ε : Type) (c : Client ε) (ds : List Doc)
    (filt : Doc → Bool) (ofield : String) (asc : Bool) (p k : Nat) :
    evalPipe ds (getPageQuery
      { client := c, filt := filt, orderField := ofield,
        sortAsc := asc, pageSize := (p : Int) } (k : Int)) = pageWindow ds filt asc p k := by
  unfold evalPipe
  rw [pipeBody_getPageQuery]
  show groqSlice ((k : Int) * (p : Int)) ((k : Int) * (p : Int) + (p : Int))
    (sortedLogical ds filt asc) = pageWindow ds filt asc p k
  rw [show ((k : Int) * (p : Int)) = ((k * p : Nat) : Int) by push_cast; ring,
    show (((k * p : Nat) : Int) + (p : Int)) = ((k * p + p : Nat) : Int) by push_cast; ring]
  rw [groqSlice_nat, List.drop_take, show k * p + p - k * p = p by omega]
  rfl

theorem evalPipe_nextPageQuery (ε : Type) (c : Client ε) (ds : List Doc)
    (filt : Doc → Bool) (ofield : String) (asc : Bool) (p : Nat) (st : PQState) :
    evalPipe ds (nextPageQuery
      { client := c, filt := filt, orderField := ofield,
        sortAsc := asc, pageSize := (p : Int) } st) =
      ((sortedLogical ds filt asc).filter
        (nextPred
          { client := c, filt := filt, orderField := ofield,
            sortAsc := asc, pageSize := (p : Int) } st)).take p := by
  unfold evalPipe nextPageQuery
  rw [pipeBody_some]
  show groqSlice ((0 : Nat) : Int) ((p : Nat) : Int) _ = _
  rw [groqSlice_nat, List.drop_zero]

theorem evalPipe_previousPageQuery (ε : Type) (c : Client ε) (ds : List Doc)
    (filt : Doc → Bool) (ofield : String) (asc : Bool) (p : Nat) (st : PQState) :
    evalPipe ds (previousPageQuery
      { client := c, filt := filt, orderField := ofield,
        sortAsc := asc, pageSize := (p : Int) } st) =
      orderSort asc (((sortedLogical ds filt (!asc)).filter
        (prevPred
          { client := c, filt := filt, orderField := ofield,
            sortAsc := asc, pageSize := (p : Int) } st)).take p) := by
  unfold evalPipe previousPageQuery
  rw [pipeBody_some]
  show orderSort asc (groqSlice ((0 : Nat) : Int) ((p : Nat) : Int) _) = _
  rw [groqSlice_nat, List.drop_zero]

theorem pageWindow_length {ds : List Doc} {filt : Doc → Bool} {asc : Bool} {p k : Nat}
    (hfull : k * p + p ≤ (sortedLogical ds filt asc).length) :
    (pageWindow ds filt asc p k).length = p := by
  show (((sortedLogical ds filt asc).drop (k * p)).take p).length = p
  rw [List.length_take, List.length_drop]
  omega

theorem pageWindow_ne {ds : List Doc} {filt : Doc → Bool} {asc : Bool} {p k : Nat}
    (hp : 0 < p) (h : k * p < (sortedLogical ds filt asc).length) :
    pageWindow ds filt asc p k ≠ [] := by
  have hlen : (pageWindow ds filt asc p k).length ≠ 0 := by
    show (((sortedLogical ds filt asc).drop (k * p)).take p).length ≠ 0
    rw [List.length_take, List.length_drop]
    omega
  intro hcon
  rw [hcon] at hlen
  exact hlen rfl

theorem pageWindow_getLast {ds : List Doc} {filt : Doc → Bool} {asc : Bool} {p k : Nat}
    (hp : 0 < p) (hfull : k * p + p ≤ (sortedLogical ds filt asc).length)
    (hne : pageWindow ds filt asc p k ≠ [])
    (hidx : k * p + (p - 1) < (sortedLogical ds filt asc).length) :
    (pageWindow ds filt asc p k).getLast hne =
      (sortedLogical ds filt asc)[k * p + (p - 1)] := by
  have h1 : some ((pageWindow ds filt asc p k).getLast hne) =
      some ((sortedLogical ds filt asc)[k * p + (p - 1)]) := by
    rw [← List.getLast?_eq_getLast _ hne, List.getLast?_eq_getElem?,
      pageWindow_length hfull]
    show (((sortedLogical ds filt asc).drop (k * p)).take p)[p - 1]? = _
    rw [List.getElem?_take_of_lt (by omega), List.getElem?_drop,
      List.getElem?_eq_getElem hidx]
  exact Option.some.inj h1

theorem pageWindow_head {ds : List Doc} {filt : Doc → Bool} {asc : Bool} {p k : Nat}
    (hp : 0 < p) (hne : pageWindow ds filt asc p k ≠ [])
    (hidx : k * p + 0 < (sortedLogical ds filt asc).length) :
    (pageWindow ds filt asc p k).head hne =
      (sortedLogical ds filt asc)[k * p + 0] := by
  have h1 : some ((pageWindow ds filt asc p k).head hne) =
      some ((sortedLogical ds filt asc)[k * p + 0]) := by
    rw [← List.head?_eq_head hne, List.head?_eq_getElem?]
    show (((sortedLogical ds filt asc).drop (k * p)).take p)[0]? = _
    rw [List.getElem?_take_of_lt (by omega), List.getElem?_drop,
      List.getElem?_eq_getElem hidx]
  exact Option.some.inj h1

theorem getPage_groq (ε : Type) (ds : List Doc) (filt : Doc → Bool)
    (ofield : String) (asc : Bool) (p k : Nat) (st : PQState)
    (hne : pageWindow ds filt asc p k ≠ []) :
    getPage (ε := ε)
      { client := groqClient ds, filt := filt, orderField := ofield,
        sortAsc := asc, pageSize := (p : Int) } (k : Int) st =
    (Except.ok (pageWindow ds filt asc p k),
      { currentPage := some (k : Int)
        lastOrderFieldMin := some ((pageWindow ds filt asc p k).head hne).orderVal
        lastOrderFieldMax := some ((pageWindow ds filt asc p k).getLast hne).orderVal
        lastMinId := some ((pageWindow ds filt asc p k).head hne)._id
        lastMaxId := some ((pageWindow ds filt asc p k).getLast hne)._id }) := by
  have hf : (groqClient ds (ε := ε)).fetchList (getPageQuery (ε := ε)
      { client := groqClient ds, filt := filt, orderField := ofield,
        sortAsc := asc, pageSize := (p : Int) } (k : Int)) =
      .ok (pageWindow ds filt asc p k) := by
    show Except.ok (evalPipe ds (getPageQuery (ε := ε)
      { client := groqClient ds, filt := filt, orderField := ofield,
        sortAsc := asc, pageSize := (p : Int) } (k : Int))) = _
    rw [evalPipe_getPageQuery]
  rw [getPage_fetch_ok st hf, saveBounds?_eq hne]


theorem nextPage_groq_drop (ε : Type) (ds : List Doc) (filt : Doc → Bool)
    (ofield : String) (p k : Nat) (st : PQState)
    (hp : 0 < p)
    (hnumL : ∀ d ∈ sortedLogical ds filt true, ∃ n, d.orderVal = SValue.num n)
    (hstrict : (sortedLogical ds filt true).Pairwise
      (fun a b => svLtP a.orderVal b.orderVal))
    (he : k * p + (p - 1) < (sortedLogical ds filt true).length)
    (cur : Int) (hc : st.currentPage = some cur)
    (hmaxV : st.lastOrderFieldMax =
      some ((sortedLogical ds filt true)[k * p + (p - 1)]).orderVal)
    (hmaxI : st.lastMaxId =
      some ((sortedLogical ds filt true)[k * p + (p - 1)])._id)
    (hne1 : pageWindow ds filt true p (k + 1) ≠ []) :
    (nextPage (ε := ε)
        { client := groqClient ds, filt := filt, orderField := ofield,
          sortAsc := true, pageSize := (p : Int) } st).1 =
      Except.ok (pageWindow ds filt true p (k + 1)) := by
  have hfetch : ((groqClient ds (ε := ε)).fetchList (nextPageQuery (ε := ε)
      { client := groqClient ds, filt := filt, orderField := ofield,
        sortAsc := true, pageSize := (p : Int) } st)) =
      Except.ok (evalPipe ds (nextPageQuery (ε := ε)
        { client := groqClient ds, filt := filt, orderField := ofield,
          sortAsc := true, pageSize := (p : Int) } st)) := rfl
  rw [nextPage_fetch_ok hc hfetch]
  have hres : evalPipe ds (nextPageQuery (ε := ε)
      { client := groqClient ds, filt := filt, orderField := ofield,
        sortAsc := true, pageSize := (p : Int) } st) =
      pageWindow ds filt true p (k + 1) := by
    rw [evalPipe_nextPageQuery,
      filter_nextPred_eq_drop _ _ he hstrict hnumL hmaxV hmaxI,
      show k * p + (p - 1) + 1 = (k + 1) * p from by rw [Nat.succ_mul]; omega]
    rfl
  rw [hres, saveBounds?_eq hne1]

/-- **C1** (amended): with the ascending sort direction, numeric sort-key
values, and pairwise-distinct keys over the visible filtered documents,
calling `nextPage()` immediately after a successful `getPage(k)` yields the
same sequence as `getPage(k+1)`, whenever page `k+1` is non-empty. -/
theorem nextPage_after_getPage_eq_succ (ε : Type) (ds : List Doc)
    (filt : Doc → Bool) (ofield : String) (p k : Nat) (st0 st1 : PQState)
    (hp : 0 < p)
    (hnum : ∀ d ∈ ds, ∃ n, d.orderVal = SValue.num n)
    (hdist : (visibleFiltered ds filt).Pairwise (fun a b => a.orderVal ≠ b.orderVal))
    (hlen : (k + 1) * p < (sortedLogical ds filt true).length) :
    (nextPage (ε := ε)
        { client := groqClient ds, filt := filt, orderField := ofield,
          sortAsc := true, pageSize := (p : Int) }
        (getPage (ε := ε)
          { client := groqClient ds, filt := filt, orderField := ofield,
            sortAsc := true, pageSize := (p : Int) } (k : Int) st0).2).1 =
      Except.ok (pageWindow ds filt true p (k + 1)) ∧
    (getPage (ε := ε)
        { client := groqClient ds, filt := filt, orderField := ofield,
          sortAsc := true, pageSize := (p : Int) } ((k + 1 : Nat) : Int) st1).1 =
      Except.ok (pageWindow ds filt true p (k + 1)) := by
  have hsum : (k + 1) * p = k * p + p := Nat.succ_mul k p
  rw [hsum] at hlen
  have hnek : pageWindow ds filt true p k ≠ [] := pageWindow_ne hp (by omega)
  have hnek1 : pageWindow ds filt true p (k + 1) ≠ [] := pageWindow_ne hp (by
    rw [hsum]; omega)
  have hfullk : k * p + p ≤ (sortedLogical ds filt true).length := le_of_lt hlen
  have he : k * p + (p - 1) < (sortedLogical ds filt true).length := by omega
  have hstrict : (sortedLogical ds filt true).Pairwise
      (fun a b => svLtP a.orderVal b.orderVal) := sorted_strict_asc hdist
  have hnumL : ∀ d ∈ sortedLogical ds filt true, ∃ n, d.orderVal = SValue.num n := by
    intro d hd
    exact hnum d (List.mem_of_mem_filter (((orderSort_perm true _).mem_iff).mp hd))
  constructor
  · rw [getPage_groq ε ds filt ofield true p k st0 hnek]
    refine nextPage_groq_drop ε ds filt ofield p k _ hp hnumL hstrict he
      (k : Int) rfl ?_ ?_ hnek1
    · show some ((pageWindow ds filt true p k).getLast hnek).orderVal = _
      rw [pageWindow_getLast hp hfullk hnek he]
    · show some ((pageWindow ds filt true p k).getLast hnek)._id = _
      rw [pageWindow_getLast hp hfullk hnek he]
  · rw [getPage_groq ε ds filt ofield true p (k + 1) st1 hnek1]

/-- Witness for C1: all hypotheses hold at `sampleDS`, page size 1, k = 0. -/
theorem nextPage_after_getPage_eq_succ_witness :
    (nextPage (ε := Nat)
        { client := groqClient sampleDS, filt := fun _ => true, orderField := "order",
          sortAsc := true, pageSize := ((1 : Nat) : Int) }
        (getPage (ε := Nat)
          { client := groqClient sampleDS, filt := fun _ => true, orderField := "order",
            sortAsc := true, pageSize := ((1 : Nat) : Int) } ((0 : Nat) : Int)
          initState).2).1 =
      Except.ok (pageWindow sampleDS (fun _ => true) true 1 (0 + 1)) ∧
    (getPage (ε := Nat)
        { client := groqClient sampleDS, filt := fun _ => true, orderField := "order",
          sortAsc := true, pageSize := ((1 : Nat) : Int) } ((0 + 1 : Nat) : Int)
        initState).1 =
      Except.ok (pageWindow sampleDS (fun _ => true) true 1 (0 + 1)) :=
  nextPage_after_getPage_eq_succ Nat sampleDS (fun _ => true) "order" 1 0
    initState initState (by decide)
    (fun d hd => by fin_cases hd <;> exact ⟨_, rfl⟩)
    (by decide) (by decide)

/-- Counterexample to C1 as stated: without the amendment's provisos the
property fails.  With a descending sort, `nextPage()` after `getPage(0)`
crashes with the empty-bounds `TypeError` although page 1 is non-empty; with
ascending ties, `nextPage()` after `getPage(0)` skips to the tied group's end
and disagrees with `getPage(1)`. -/
theorem nextPage_after_getPage_counterexample :
    (nextPage descOpts (getPage descOpts 0 initState).2).1 =
        Except.error PagErr.emptyBoundsTypeError ∧
    (getPage descOpts 1 initState).1 = Except.ok [⟨"b", .num 2⟩] ∧
    (nextPage tieNextOpts (getPage tieNextOpts 0 initState).2).1 =
        Except.ok [⟨"c", .num 2⟩] ∧
    (getPage tieNextOpts 1 initState).1 = Except.ok [⟨"a", .num 1⟩] :=
  ⟨rfl, rfl, rfl, rfl⟩

theorem orderSort_false_eq_reverse {l : List Doc}
    (hdist : l.Pairwise (fun a b => a.orderVal ≠ b.orderVal)) :
    orderSort false l = (orderSort true l).reverse := by
  have hS : (orderSort false l).Pairwise
      (fun a b => svLtP b.orderVal a.orderVal) := sorted_strict_desc hdist
  have hT : ((orderSort true l).reverse).Pairwise
      (fun a b => svLtP b.orderVal a.orderVal) := by
    rw [List.pairwise_reverse]
    exact sorted_strict_asc hdist
  have hperm : List.Perm (orderSort false l) ((orderSort true l).reverse) :=
    ((orderSort_perm false l).trans (orderSort_perm true l).symm).trans
      (List.reverse_perm _).symm
  haveI : IsAntisymm Doc (fun a b => svLtP b.orderVal a.orderVal) :=
    ⟨fun a b h1 h2 => absurd (svLtP_asymm h1 h2) not_false⟩
  exact List.eq_of_perm_of_sorted hperm hS hT

theorem sortedLogical_false_eq_reverse (ds : List Doc) (filt : Doc → Bool)
    (hdist : (visibleFiltered ds filt).Pairwise
      (fun a b => a.orderVal ≠ b.orderVal)) :
    sortedLogical ds filt false = (sortedLogical ds filt true).reverse :=
  orderSort_false_eq_reverse hdist

theorem orderSort_true_reverse_of_strict {S : List Doc}
    (hS : S.Pairwise (fun a b => svLtP a.orderVal b.orderVal)) :
    orderSort true S.reverse = S := by
  have hdistR : (S.reverse).Pairwise (fun a b => a.orderVal ≠ b.orderVal) := by
    rw [List.pairwise_reverse]
    refine hS.imp ?_
    intro a b h heq
    exact svLtP_asymm h (heq ▸ h)
  have hT : (orderSort true S.reverse).Pairwise
      (fun a b => svLtP a.orderVal b.orderVal) := sorted_strict_asc hdistR
  have hperm : List.Perm (orderSort true S.reverse) S :=
    (orderSort_perm true _).trans (List.reverse_perm S)
  haveI : IsAntisymm Doc (fun a b => svLtP a.orderVal b.orderVal) :=
    ⟨fun a b h1 h2 => absurd (svLtP_asymm h1 h2) not_false⟩
  exact List.eq_of_perm_of_sorted hperm hT hS

theorem previousPage_groq_take (ε : Type) (ds : List Doc) (filt : Doc → Bool)
    (ofield : String) (p k : Nat) (st : PQState)
    (hp : 0 < p) (hk : 1 ≤ k)
    (hdist : (visibleFiltered ds filt).Pairwise
      (fun a b => a.orderVal ≠ b.orderVal))
    (hnumL : ∀ d ∈ sortedLogical ds filt true, ∃ n, d.orderVal = SValue.num n)
    (he : k * p + 0 < (sortedLogical ds filt true).length)
    (cur : Int) (hc : st.currentPage = some cur)
    (hminV : st.lastOrderFieldMin =
      some ((sortedLogical ds filt true)[k * p + 0]).orderVal)
    (hminI : st.lastMinId =
      some ((sortedLogical ds filt true)[k * p + 0])._id) :
    (previousPage (ε := ε)
        { client := groqClient ds, filt := filt, orderField := ofield,
          sortAsc := true, pageSize := (p : Int) } st).1 =
      Except.ok (pageWindow ds filt true p (k - 1)) := by
  have hstrict : (sortedLogical ds filt true).Pairwise
      (fun a b => svLtP a.orderVal b.orderVal) := sorted_strict_asc hdist
  have hpk : p ≤ k * p := Nat.le_mul_of_pos_left p hk
  have hfetch : ((groqClient ds (ε := ε)).fetchList (previousPageQuery (ε := ε)
      { client := groqClient ds, filt := filt, orderField := ofield,
        sortAsc := true, pageSize := (p : Int) } st)) =
      Except.ok (evalPipe ds (previousPageQuery (ε := ε)
        { client := groqClient ds, filt := filt, orderField := ofield,
          sortAsc := true, pageSize := (p : Int) } st)) := rfl
  rw [previousPage_fetch_ok hc hfetch]
  have hne1 : pageWindow ds filt true p (k - 1) ≠ [] := by
    refine pageWindow_ne hp ?_
    have hmono : (k - 1) * p ≤ k * p := Nat.mul_le_mul_right p (Nat.sub_le k 1)
    omega
  have hml : ((sortedLogical ds filt true).take (k * p + 0)).length = k * p := by
    rw [List.length_take]
    omega
  have hres : evalPipe ds (previousPageQuery (ε := ε)
      { client := groqClient ds, filt := filt, orderField := ofield,
        sortAsc := true, pageSize := (p : Int) } st) =
      pageWindow ds filt true p (k - 1) := by
    rw [evalPipe_previousPageQuery,
      show (!true) = false from rfl,
      sortedLogical_false_eq_reverse ds filt hdist,
      List.filter_reverse,
      filter_prevPred_eq_take _ _ he hstrict hnumL hminV hminI,
      List.take_reverse, hml,
      List.drop_take,
      show k * p + 0 - (k * p - p) = p from by omega,
      show k * p - p = (k - 1) * p from by rw [Nat.sub_mul, Nat.one_mul]]
    refine orderSort_true_reverse_of_strict ?_
    refine List.Pairwise.sublist ?_ hstrict
    exact (List.take_sublist _ _).trans (List.drop_sublist _ _)
  rw [hres, saveBounds?_eq hne1]

/-- **C2** (amended): with the ascending sort direction, numeric sort-key
values, and pairwise-distinct keys over the visible filtered documents,
calling `previousPage()` immediately after a successful `getPage(k)` with
`k ≥ 1` yields the same sequence as `getPage(k-1)`. -/
theorem previousPage_after_getPage_eq_pred (ε : Type) (ds : List Doc)
    (filt : Doc → Bool) (ofield : String) (p k : Nat) (st0 st1 : PQState)
    (hp : 0 < p) (hk : 1 ≤ k)
    (hnum : ∀ d ∈ ds, ∃ n, d.orderVal = SValue.num n)
    (hdist : (visibleFiltered ds filt).Pairwise (fun a b => a.orderVal ≠ b.orderVal))
    (hlen : k * p < (sortedLogical ds filt true).length) :
    (previousPage (ε := ε)
        { client := groqClient ds, filt := filt, orderField := ofield,
          sortAsc := true, pageSize := (p : Int) }
        (getPage (ε := ε)
          { client := groqClient ds, filt := filt, orderField := ofield,
            sortAsc := true, pageSize := (p : Int) } (k : Int) st0).2).1 =
      Except.ok (pageWindow ds filt true p (k - 1)) ∧
    (getPage (ε := ε)
        { client := groqClient ds, filt := filt, orderField := ofield,
          sortAsc := true, pageSize := (p : Int) } ((k - 1 : Nat) : Int) st1).1 =
      Except.ok (pageWindow ds filt true p (k - 1)) := by
  have hnek : pageWindow ds filt true p k ≠ [] := pageWindow_ne hp hlen
  have hnek1 : pageWindow ds filt true p (k - 1) ≠ [] := by
    refine pageWindow_ne hp ?_
    have hmono : (k - 1) * p ≤ k * p := Nat.mul_le_mul_right p (Nat.sub_le k 1)
    omega
  have he0 : k * p + 0 < (sortedLogical ds filt true).length := by omega
  have hnumL : ∀ d ∈ sortedLogical ds filt true, ∃ n, d.orderVal = SValue.num n := by
    intro d hd
    exact hnum d (List.mem_of_mem_filter (((orderSort_perm true _).mem_iff).mp hd))
  constructor
  · rw [getPage_groq ε ds filt ofield true p k st0 hnek]
    refine previousPage_groq_take ε ds filt ofield p k _ hp hk hdist hnumL he0
      (k : Int) rfl ?_ ?_
    · show some ((pageWindow ds filt true p k).head hnek).orderVal = _
      rw [pageWindow_head hp hnek he0]
    · show some ((pageWindow ds filt true p k).head hnek)._id = _
      rw [pageWindow_head hp hnek he0]
  · rw [getPage_groq ε ds filt ofield true p (k - 1) st1 hnek1]

/-- Witness for C2: all hypotheses hold at `sampleDS`, page size 1, k = 1. -/
theorem previousPage_after_getPage_eq_pred_witness :
    (previousPage (ε := Nat)
        { client := groqClient sampleDS, filt := fun _ => true, orderField := "order",
          sortAsc := true, pageSize := ((1 : Nat) : Int) }
        (getPage (ε := Nat)
          { client := groqClient sampleDS, filt := fun _ => true, orderField := "order",
            sortAsc := true, pageSize := ((1 : Nat) : Int) } ((1 : Nat) : Int)
          initState).2).1 =
      Except.ok (pageWindow sampleDS (fun _ => true) true 1 (1 - 1)) ∧
    (getPage (ε := Nat)
        { client := groqClient sampleDS, filt := fun _ => true, orderField := "order",
          sortAsc := true, pageSize := ((1 : Nat) : Int) } ((1 - 1 : Nat) : Int)
        initState).1 =
      Except.ok (pageWindow sampleDS (fun _ => true) true 1 (1 - 1)) :=
  previousPage_after_getPage_eq_pred Nat sampleDS (fun _ => true) "order" 1 1
    initState initState (by decide) (by decide)
    (fun d hd => by fin_cases hd <;> exact ⟨_, rfl⟩)
    (by decide) (by decide)

/-- Counterexample to C2 as stated: without the amendment's provisos the
property fails.  With a descending sort, `previousPage()` after `getPage(1)`
returns the document before the whole dataset's maximum instead of page 0;
with ascending ties, `previousPage()` after `getPage(1)` crashes with the
empty-bounds `TypeError` although page 0 is non-empty. -/
theorem previousPage_after_getPage_counterexample :
    (previousPage descOpts (getPage descOpts 1 initState).2).1 =
        Except.ok [⟨"a", .num 1⟩] ∧
    (getPage descOpts 0 initState).1 = Except.ok [⟨"c", .num 3⟩] ∧
    (previousPage tieNextOpts (getPage tieNextOpts 1 initState).2).1 =
        Except.error PagErr.emptyBoundsTypeError ∧
    (getPage tieNextOpts 0 initState).1 = Except.ok [⟨"b", .num 1⟩] :=
  ⟨rfl, rfl, rfl, rfl⟩
